import Mathlib

/-- Gregorian leap-year test. -/
def isLeap (y : ℕ) : Bool := decide ((y % 4 = 0 ∧ y % 100 ≠ 0) ∨ y % 400 = 0)

/-- Number of days in month `m` of year `y` (months are 1-based). -/
def daysInMonth (y m : ℕ) : ℕ :=
  if m = 2 then (if isLeap y then 29 else 28)
  else if m = 4 ∨ m = 6 ∨ m = 9 ∨ m = 11 then 30
  else 31

/-- A calendar date: year, month (1-12), day (1-31). -/
structure CalDate where
  y : ℕ
  m : ℕ
  d : ℕ
deriving DecidableEq, Repr

/-- A well-formed Gregorian date (year at least 1). -/
def CalDate.Valid (dt : CalDate) : Prop :=
  1 ≤ dt.y ∧ 1 ≤ dt.m ∧ dt.m ≤ 12 ∧ 1 ≤ dt.d ∧ dt.d ≤ daysInMonth dt.y dt.m

instance (dt : CalDate) : Decidable dt.Valid := by
  unfold CalDate.Valid; infer_instance

/-- Zeller's congruence kernel on the shifted year and month. -/
def dowAux (zy zm d : ℕ) : ℕ :=
  (d + 13 * (zm + 1) / 5 + zy % 100 + zy % 100 / 4 + zy / 100 / 4 + 5 * (zy / 100)) % 7

/-- Day of week by Zeller's congruence: 0 = Saturday, 1 = Sunday, ..., 6 = Friday. -/
def dow (dt : CalDate) : ℕ :=
  if dt.m ≤ 2 then dowAux (dt.y - 1) (dt.m + 12) dt.d else dowAux dt.y dt.m dt.d

/-- The next calendar day. -/
def succDay (dt : CalDate) : CalDate :=
  if dt.d < daysInMonth dt.y dt.m then ⟨dt.y, dt.m, dt.d + 1⟩
  else if dt.m < 12 then ⟨dt.y, dt.m + 1, 1⟩
  else ⟨dt.y + 1, 1, 1⟩

theorem daysInMonth_ge (y m : ℕ) : 28 ≤ daysInMonth y m := by
  unfold daysInMonth; split_ifs <;> omega

theorem succDay_valid (dt : CalDate) (h : dt.Valid) : (succDay dt).Valid := by
  obtain ⟨y, m, d⟩ := dt
  have h28a := daysInMonth_ge y (m + 1)
  have h28b := daysInMonth_ge (y + 1) 1
  obtain ⟨hy, hm1, hm2, hd1, hd2⟩ := h
  unfold succDay
  split_ifs with h1 h2 <;>
    (simp only [CalDate.Valid] at *
     exact ⟨by omega, by omega, by omega, by omega, by omega⟩)

theorem Z_step_leap (y : ℕ) (hy : 1 ≤ y) (hl : (y % 4 = 0 ∧ y % 100 ≠ 0) ∨ y % 400 = 0) :
    (y % 100 + y % 100 / 4 + y / 100 / 4 + 5 * (y / 100)) % 7
      = ((y - 1) % 100 + (y - 1) % 100 / 4 + (y - 1) / 100 / 4 + 5 * ((y - 1) / 100) + 2) % 7 := by
  rcases eq_or_ne (y % 100) 0 with h | h
  · obtain ⟨k, rfl⟩ : ∃ k, y = 100 * k := ⟨y / 100, by omega⟩
    have hk1 : 1 ≤ k := by omega
    have h4 : k % 4 = 0 := by
      rcases hl with ⟨h4', h100⟩ | h400
      · exact absurd (by omega) h100
      · omega
    have e0 : 100 * k % 100 = 0 := by omega
    have e1 : 100 * k / 100 = k := by omega
    have e2 : (100 * k - 1) % 100 = 99 := by omega
    have e3 : (100 * k - 1) / 100 = k - 1 := by omega
    rw [e0, e1, e2, e3]
    obtain ⟨j, rfl⟩ : ∃ j, k = 4 * j := ⟨k / 4, by omega⟩
    have e4 : 4 * j / 4 = j := by omega
    have e5 : (4 * j - 1) / 4 = j - 1 := by omega
    rw [e4, e5]
    omega
  · have hy4 : y % 4 = 0 := by
      rcases hl with ⟨h4', _⟩ | h400 <;> omega
    have e1 : (y - 1) / 100 = y / 100 := by omega
    have e2 : (y - 1) % 100 = y % 100 - 1 := by omega
    have e3 : (y % 100 - 1) / 4 = y % 100 / 4 - 1 := by omega
    have e4 : 1 ≤ y % 100 / 4 := by omega
    rw [e1, e2, e3]
    omega

theorem Z_step_nonleap (y : ℕ) (hy : 1 ≤ y)
    (hl : ¬ ((y % 4 = 0 ∧ y % 100 ≠ 0) ∨ y % 400 = 0)) :
    (y % 100 + y % 100 / 4 + y / 100 / 4 + 5 * (y / 100)) % 7
      = ((y - 1) % 100 + (y - 1) % 100 / 4 + (y - 1) / 100 / 4 + 5 * ((y - 1) / 100) + 1) % 7 := by
  rcases eq_or_ne (y % 100) 0 with h | h
  · obtain ⟨k, rfl⟩ : ∃ k, y = 100 * k := ⟨y / 100, by omega⟩
    have hk1 : 1 ≤ k := by omega
    have h4 : k % 4 ≠ 0 := fun hk => hl (Or.inr (by omega))
    have e0 : 100 * k % 100 = 0 := by omega
    have e1 : 100 * k / 100 = k := by omega
    have e2 : (100 * k - 1) % 100 = 99 := by omega
    have e3 : (100 * k - 1) / 100 = k - 1 := by omega
    have e4 : (k - 1) / 4 = k / 4 := by omega
    rw [e0, e1, e2, e3, e4]
    omega
  · have hy4 : y % 4 ≠ 0 := by omega
    have e1 : (y - 1) / 100 = y / 100 := by omega
    have e2 : (y - 1) % 100 = y % 100 - 1 := by omega
    have e3 : (y % 100 - 1) / 4 = y % 100 / 4 := by omega
    rw [e1, e2, e3]
    omega

theorem dow_succDay (dt : CalDate) (h : dt.Valid) : dow (succDay dt) = (dow dt + 1) % 7 := by
  obtain ⟨y, m, d⟩ := dt
  obtain ⟨hy, hm1, hm2, hd1, hd2⟩ := h
  simp only [CalDate.Valid] at hy hm1 hm2 hd1 hd2
  interval_cases m <;>
    (simp only [succDay, daysInMonth] at hd2 ⊢
     norm_num at hd2 ⊢
     split_ifs at hd2 ⊢ <;>
       (simp only [dow, dowAux]
        norm_num
        (try simp only [isLeap, decide_eq_true_eq] at *)
        first
        | omega
        | (have hz := Z_step_leap y (by omega) (by assumption); omega)
        | (have hz := Z_step_nonleap y (by omega) (by assumption); omega)))

/-- Add `n` calendar days. -/
def addDays (n : ℕ) (dt : CalDate) : CalDate :=
  match n with
  | 0 => dt
  | n + 1 => addDays n (succDay dt)

theorem addDays_valid (n : ℕ) (dt : CalDate) (h : dt.Valid) : (addDays n dt).Valid := by
  induction n generalizing dt with
  | zero => exact h
  | succ n ih => exact ih _ (succDay_valid dt h)

theorem dow_lt_7 (dt : CalDate) : dow dt < 7 := by
  unfold dow dowAux; split_ifs <;> exact Nat.mod_lt _ (by omega)

theorem dow_addDays (n : ℕ) (dt : CalDate) (h : dt.Valid) :
    dow (addDays n dt) = (dow dt + n) % 7 := by
  induction n generalizing dt with
  | zero =>
    have := dow_lt_7 dt
    unfold addDays
    omega
  | succ n ih =>
    have := ih (succDay dt) (succDay_valid dt h)
    rw [addDays, this, dow_succDay dt h]
    omega

/-- The Friday on or after the given date: right edge of its pandas `W-FRI` bucket. -/
def nextFriday (dt : CalDate) : CalDate := addDays ((13 - dow dt) % 7) dt

theorem nextFriday_valid (dt : CalDate) (h : dt.Valid) : (nextFriday dt).Valid :=
  addDays_valid _ _ h

theorem dow_nextFriday (dt : CalDate) (h : dt.Valid) : dow (nextFriday dt) = 6 := by
  rw [nextFriday, dow_addDays _ _ h]
  have := dow_lt_7 dt
  omega

theorem nextFriday_idem (dt : CalDate) (h : dt.Valid) :
    nextFriday (nextFriday dt) = nextFriday dt := by
  have h6 := dow_nextFriday dt h
  rw [nextFriday, h6]
  rfl

/-- Right edge of the pandas `ME` bucket: the last calendar day of the month. -/
def monthEnd (dt : CalDate) : CalDate := ⟨dt.y, dt.m, daysInMonth dt.y dt.m⟩

/-- The month ending the calendar quarter containing month `m` (pandas `QE`). -/
def quarterEndMonth (m : ℕ) : ℕ :=
  if m ≤ 3 then 3 else if m ≤ 6 then 6 else if m ≤ 9 then 9 else 12

/-- Right edge of the pandas `QE` bucket: the last day of the calendar quarter. -/
def quarterEnd (dt : CalDate) : CalDate :=
  ⟨dt.y, quarterEndMonth dt.m, daysInMonth dt.y (quarterEndMonth dt.m)⟩

/-- Right edge of the pandas `YE` bucket: December 31. -/
def yearEnd (dt : CalDate) : CalDate := ⟨dt.y, 12, 31⟩

theorem monthEnd_idem (dt : CalDate) : monthEnd (monthEnd dt) = monthEnd dt := rfl

theorem quarterEndMonth_idem (m : ℕ) :
    quarterEndMonth (quarterEndMonth m) = quarterEndMonth m := by
  unfold quarterEndMonth; split_ifs <;> omega

theorem quarterEnd_idem (dt : CalDate) : quarterEnd (quarterEnd dt) = quarterEnd dt := by
  unfold quarterEnd
  rw [CalDate.mk.injEq]
  refine ⟨rfl, quarterEndMonth_idem dt.m, by rw [quarterEndMonth_idem]⟩

theorem yearEnd_idem (dt : CalDate) : yearEnd (yearEnd dt) = yearEnd dt := rfl

/-- Period-end bucketing per pandas offset rule, as used by `Series.resample(rule).last()`:
`D` keeps the date, `W-FRI` maps to the Friday on or after it, `ME`/`QE`/`YE` to the
calendar month / quarter / year end. Any other string is unreachable because
`_freq_to_pandas` only produces these five codes. -/
def periodEnd (rule : String) (dt : CalDate) : CalDate :=
  if rule = "D" then dt
  else if rule = "W-FRI" then nextFriday dt
  else if rule = "ME" then monthEnd dt
  else if rule = "QE" then quarterEnd dt
  else if rule = "YE" then yearEnd dt
  else dt

theorem periodEnd_idem (rule : String) (dt : CalDate) (h : dt.Valid) :
    periodEnd rule (periodEnd rule dt) = periodEnd rule dt := by
  unfold periodEnd
  split_ifs <;>
    first
    | rfl
    | exact nextFriday_idem dt h
    | exact quarterEnd_idem dt

/-- Chronological (lexicographic year/month/day) order on calendar dates; this is the
order `sort_values("date")` uses on the parsed datetime column. -/
def CalDate.lt (a b : CalDate) : Prop :=
  a.y < b.y ∨ (a.y = b.y ∧ (a.m < b.m ∨ (a.m = b.m ∧ a.d < b.d)))

instance (a b : CalDate) : Decidable (CalDate.lt a b) := by
  unfold CalDate.lt; infer_instance

theorem CalDate.lt_irrefl (a : CalDate) : ¬ CalDate.lt a a := by
  unfold CalDate.lt; omega

theorem CalDate.lt_asymm {a b : CalDate} (h : CalDate.lt a b) : ¬ CalDate.lt b a := by
  unfold CalDate.lt at *; omega

theorem CalDate.lt_ne {a b : CalDate} (h : CalDate.lt a b) : a ≠ b := by
  intro heq
  subst heq
  exact CalDate.lt_irrefl a h

theorem CalDate.lt_of_ne_of_not_lt {a b : CalDate} (hne : a ≠ b) (h : ¬ CalDate.lt b a) :
    CalDate.lt a b := by
  obtain ⟨ay, am, ad⟩ := a; obtain ⟨by_, bm, bd⟩ := b
  simp only [ne_eq, CalDate.mk.injEq, not_and] at hne
  unfold CalDate.lt at *
  dsimp only at *
  by_cases h1 : ay = by_ <;> by_cases h2 : am = bm <;> simp_all <;> omega

theorem CalDate.not_lt_trans {a b c : CalDate} (h1 : ¬ CalDate.lt b a) (h2 : ¬ CalDate.lt c b) :
    ¬ CalDate.lt c a := by
  unfold CalDate.lt at *; omega

theorem CalDate.lt_of_lt_of_not_lt {a b c : CalDate} (h1 : CalDate.lt a b)
    (h2 : ¬ CalDate.lt c b) : CalDate.lt a c := by
  unfold CalDate.lt at *; omega

/-- One step of a stable insertion sort on (date, value) pairs: the new pair goes in
front of the first element whose date is not strictly smaller, so elements with equal
dates keep their original relative order. Used only where the input order on equal
keys is already determined (the resample model, whose input arrives date-sorted); the
unstable `sort_values` of `_coerce_series_from_df` is modelled relationally by
`SortValues` below instead. -/
def insertByDate (x : CalDate × ℚ) : List (CalDate × ℚ) → List (CalDate × ℚ)
  | [] => [x]
  | y :: ys => if CalDate.lt y.1 x.1 then y :: insertByDate x ys else x :: y :: ys

/-- Stable sort of (date, value) pairs by date, ascending. -/
def sortByDate (l : List (CalDate × ℚ)) : List (CalDate × ℚ) :=
  l.foldr insertByDate []

/-- Drop every element that is immediately followed by one with the same date, keeping
the last of each run of equal dates. On a date-sorted list this models
`s[~s.index.duplicated(keep="last")]`. -/
def keepLastRun {α : Type} : List (CalDate × α) → List (CalDate × α)
  | [] => []
  | [x] => [x]
  | x :: y :: rest =>
    if x.1 = y.1 then keepLastRun (y :: rest) else x :: keepLastRun (y :: rest)

/-- Sort by date (stable), then keep the last row of each equal-date run: the
`sort_values` + `index.duplicated(keep="last")` combination of
`_coerce_series_from_df`. -/
def sortKeepLast (l : List (CalDate × ℚ)) : List (CalDate × ℚ) :=
  keepLastRun (sortByDate l)

/-- The value stored at date `d`, if any. -/
def lookupDate {α : Type} (s : List (CalDate × α)) (d : CalDate) : Option α :=
  (s.find? (fun p => decide (p.1 = d))).map Prod.snd

/-- Dates are non-decreasing along the list. -/
def SortedLE {α : Type} (l : List (CalDate × α)) : Prop :=
  l.Pairwise (fun a b => ¬ CalDate.lt b.1 a.1)

/-- Dates are strictly increasing along the list. -/
def StrictSorted {α : Type} (l : List (CalDate × α)) : Prop :=
  l.Pairwise (fun a b => CalDate.lt a.1 b.1)

instance {α : Type} (l : List (CalDate × α)) : Decidable (SortedLE l) := by
  unfold SortedLE; infer_instance

instance {α : Type} (l : List (CalDate × α)) : Decidable (StrictSorted l) := by
  unfold StrictSorted; infer_instance

theorem mem_insertByDate {x z : CalDate × ℚ} {l : List (CalDate × ℚ)} :
    z ∈ insertByDate x l ↔ z = x ∨ z ∈ l := by
  induction l with
  | nil => simp [insertByDate]
  | cons y ys ih =>
    by_cases h : CalDate.lt y.1 x.1 <;> (simp [insertByDate, h, ih]; try tauto)

theorem sortedLE_insertByDate {x : CalDate × ℚ} {l : List (CalDate × ℚ)}
    (h : SortedLE l) : SortedLE (insertByDate x l) := by
  induction l with
  | nil => simp [insertByDate, SortedLE]
  | cons y ys ih =>
    rcases List.pairwise_cons.mp h with ⟨hy, hys⟩
    by_cases hlt : CalDate.lt y.1 x.1
    · simp only [insertByDate, if_pos hlt]
      refine List.Pairwise.cons ?_ (ih hys)
      intro z hz
      rcases mem_insertByDate.mp hz with rfl | hz'
      · exact CalDate.lt_asymm hlt
      · exact hy z hz'
    · simp only [insertByDate, if_neg hlt]
      refine List.Pairwise.cons ?_ h
      intro z hz
      rcases List.mem_cons.mp hz with rfl | hz'
      · exact hlt
      · exact CalDate.not_lt_trans hlt (hy z hz')

theorem sortByDate_sortedLE (l : List (CalDate × ℚ)) : SortedLE (sortByDate l) := by
  induction l with
  | nil => simp [sortByDate, SortedLE]
  | cons x xs ih =>
    simp only [sortByDate, List.foldr_cons] at *
    exact sortedLE_insertByDate ih

theorem mem_sortByDate {z : CalDate × ℚ} {l : List (CalDate × ℚ)} :
    z ∈ sortByDate l ↔ z ∈ l := by
  induction l with
  | nil => simp [sortByDate]
  | cons x xs ih =>
    simp only [sortByDate, List.foldr_cons] at *
    rw [mem_insertByDate, ih]
    simp [eq_comm]

theorem mem_keepLastRun {α : Type} {z : CalDate × α} {l : List (CalDate × α)}
    (h : z ∈ keepLastRun l) : z ∈ l := by
  induction l with
  | nil => simp [keepLastRun] at h
  | cons x xs ih =>
    cases xs with
    | nil => simpa [keepLastRun] using h
    | cons y rest =>
      by_cases hxy : x.1 = y.1
      · simp only [keepLastRun, if_pos hxy] at h
        exact List.mem_cons_of_mem _ (ih h)
      · simp only [keepLastRun, if_neg hxy] at h
        rcases List.mem_cons.mp h with rfl | h'
        · exact List.mem_cons_self _ _
        · exact List.mem_cons_of_mem _ (ih h')

theorem keepLastRun_strict {α : Type} {l : List (CalDate × α)} (h : SortedLE l) :
    StrictSorted (keepLastRun l) := by
  induction l with
  | nil => simp [keepLastRun, StrictSorted]
  | cons x xs ih =>
    cases xs with
    | nil => simp [keepLastRun, StrictSorted]
    | cons y rest =>
      rcases List.pairwise_cons.mp h with ⟨hx, hrest⟩
      by_cases hxy : x.1 = y.1
      · simp only [keepLastRun, if_pos hxy]
        exact ih hrest
      · simp only [keepLastRun, if_neg hxy]
        refine List.Pairwise.cons ?_ (ih hrest)
        intro z hz
        have hzmem := mem_keepLastRun hz
        have hxy' : CalDate.lt x.1 y.1 :=
          CalDate.lt_of_ne_of_not_lt hxy (hx y (List.mem_cons_self _ _))
        rcases List.mem_cons.mp hzmem with rfl | hz'
        · exact hxy'
        · exact CalDate.lt_of_lt_of_not_lt hxy'
            (List.pairwise_cons.mp hrest |>.1 z hz')

theorem keepLastRun_id {α : Type} {l : List (CalDate × α)} (h : StrictSorted l) :
    keepLastRun l = l := by
  induction l with
  | nil => rfl
  | cons x xs ih =>
    cases xs with
    | nil => rfl
    | cons y rest =>
      rcases List.pairwise_cons.mp h with ⟨hx, hrest⟩
      have hne : x.1 ≠ y.1 := CalDate.lt_ne (hx y (List.mem_cons_self _ _))
      simp only [keepLastRun, if_neg hne]
      rw [ih hrest]

theorem insertByDate_front {x : CalDate × ℚ} {l : List (CalDate × ℚ)}
    (h : ∀ z ∈ l, ¬ CalDate.lt z.1 x.1) : insertByDate x l = x :: l := by
  cases l with
  | nil => rfl
  | cons y ys => exact if_neg (h y (List.mem_cons_self _ _))

theorem sortByDate_id {l : List (CalDate × ℚ)} (h : SortedLE l) : sortByDate l = l := by
  induction l with
  | nil => rfl
  | cons x xs ih =>
    rcases List.pairwise_cons.mp h with ⟨hx, hxs⟩
    simp only [sortByDate, List.foldr_cons] at *
    rw [ih hxs]
    exact insertByDate_front hx

theorem strictSorted_sortedLE {α : Type} {l : List (CalDate × α)} (h : StrictSorted l) :
    SortedLE l :=
  h.imp (fun hab => CalDate.lt_asymm hab)

theorem sortKeepLast_strict (l : List (CalDate × ℚ)) : StrictSorted (sortKeepLast l) :=
  keepLastRun_strict (sortByDate_sortedLE l)

theorem sortKeepLast_id {l : List (CalDate × ℚ)} (h : StrictSorted l) :
    sortKeepLast l = l := by
  rw [sortKeepLast, sortByDate_id (strictSorted_sortedLE h), keepLastRun_id h]

theorem mem_sortKeepLast {z : CalDate × ℚ} {l : List (CalDate × ℚ)}
    (h : z ∈ sortKeepLast l) : z ∈ l :=
  mem_sortByDate.mp (mem_keepLastRun h)

theorem mem_dates_keepLastRun {α : Type} {d : CalDate} {l : List (CalDate × α)}
    (h : ∃ v, (d, v) ∈ l) : ∃ v, (d, v) ∈ keepLastRun l := by
  induction l with
  | nil => simpa [keepLastRun] using h
  | cons x xs ih =>
    cases xs with
    | nil => simpa [keepLastRun] using h
    | cons y rest =>
      obtain ⟨v, hv⟩ := h
      by_cases hxy : x.1 = y.1
      · simp only [keepLastRun, if_pos hxy]
        rcases List.mem_cons.mp hv with heq | h'
        · refine ih ⟨y.2, ?_⟩
          have hd : d = y.1 := by rw [← hxy, ← heq]
          rw [hd]
          have hy : (y.1, y.2) = y := Prod.mk.eta
          rw [hy]
          exact List.mem_cons_self _ _
        · exact ih ⟨v, h'⟩
      · simp only [keepLastRun, if_neg hxy]
        rcases List.mem_cons.mp hv with heq | h'
        · exact ⟨v, by rw [heq]; exact List.mem_cons_self _ _⟩
        · obtain ⟨w, hw⟩ := ih ⟨v, h'⟩
          exact ⟨w, List.mem_cons_of_mem _ hw⟩

theorem strictSorted_val_unique {α : Type} {d : CalDate} {v v' : α}
    {l : List (CalDate × α)} (h : StrictSorted l) (h1 : (d, v) ∈ l)
    (h2 : (d, v') ∈ l) : v = v' := by
  induction l with
  | nil => simp at h1
  | cons x xs ih =>
    rcases List.pairwise_cons.mp h with ⟨hx, hxs⟩
    rcases List.mem_cons.mp h1 with h1' | h1' <;> rcases List.mem_cons.mp h2 with h2' | h2'
    · have hvv : (d, v) = (d, v') := h1'.trans h2'.symm
      simpa using hvv
    · exfalso
      have hlt := hx _ h2'
      rw [← h1'] at hlt
      exact CalDate.lt_irrefl d hlt
    · exfalso
      have hlt := hx _ h1'
      rw [← h2'] at hlt
      exact CalDate.lt_irrefl d hlt
    · exact ih hxs h1' h2'

/-!
Kernel-computable string utilities over `List Char`. The built-in `String.trim`,
`String.toLower`, `String.split`, `String.splitOn` and `String.replace` are defined by
well-founded recursion over byte positions, which the kernel cannot evaluate; these
structural equivalents keep every concrete run of the pipeline decidable.
-/

/-- ASCII whitespace, as both `str.strip()` and the blank-line filter treat it. -/
def wsChar (c : Char) : Bool := c == ' ' || c == '\t' || c == '\n' || c == '\r'

/-- Model of `str.strip()` / `String.trim`: drop leading and trailing whitespace. -/
def strTrim (s : String) : String :=
  String.mk (((s.data.dropWhile wsChar).reverse.dropWhile wsChar).reverse)

/-- ASCII lower-casing of one character, as `str.lower()` acts on the identifiers this
pipeline sees. -/
def lowerChar (c : Char) : Char :=
  if 'A' ≤ c ∧ c ≤ 'Z' then Char.ofNat (c.toNat + 32) else c

/-- Model of `str.lower()` / `String.toLower`. -/
def strLower (s : String) : String := String.mk (s.data.map lowerChar)

/-- Split a character list at every position satisfying `p` (separators dropped,
empty fields kept), the semantics of `str.split(sep)` for one-character separators. -/
def splitPred (p : Char → Bool) : List Char → List (List Char)
  | [] => [[]]
  | x :: xs =>
    match splitPred p xs with
    | [] => [[]]
    | h :: t => if p x then [] :: h :: t else (x :: h) :: t

/-- Split at every occurrence of the character `c`. -/
def splitChar (c : Char) (l : List Char) : List (List Char) :=
  splitPred (fun x => x == c) l

/-- Digit-string parser: model of `String.toNat?` (all digits, non-empty). -/
def parseNatDigits (l : List Char) : Option ℕ :=
  if l ≠ [] ∧ l.all (fun c => c.isDigit) then
    some (l.foldl (fun n c => 10 * n + (c.toNat - 48)) 0)
  else none

/-- The value-text cleaning chain of `_coerce_series_from_df` (src/app.py lines
136-143), applied in source order: drop non-breaking spaces, drop spaces, drop every
period (the code's thousands-separator removal is unconditional), then turn a decimal
comma into a decimal point. -/
def cleanValueText (t : String) : String :=
  String.mk ((((t.data.filter (fun c => !(c == '\u00A0'))).filter
    (fun c => !(c == ' '))).filter (fun c => !(c == '.'))).map
    (fun c => if c == ',' then '.' else c))

/-- A parsed floating-point value as `pd.to_numeric` can produce it: a finite number
(modelled exactly as a rational) or a signed infinity. `NaN` never materializes as a
value here because `errors="coerce"` turns parse failures into `NaN` and `dropna`
removes those rows, which the pipeline models as `none`. -/
inductive PFloat where
  | fin (q : ℚ)
  | inf (neg : Bool)
deriving DecidableEq, Repr

/-- Whether a parsed value is finite (infinities are not; `NaN` never materializes). -/
def PFloat.isFinite : PFloat → Bool
  | .fin _ => true
  | .inf _ => false

/-- Mantissa of a C-style float literal: digit strings around an optional decimal
point, at least one digit in total, as the pandas parser `precise_xstrtod` accepts
them. -/
def parseMantissa (l : List Char) : Option ℚ :=
  match splitChar '.' l with
  | [i] =>
    match parseNatDigits i with
    | some n => some ((n : ℚ))
    | none => none
  | [i, f] =>
    if i = [] ∧ f = [] then none
    else
      match (if i = [] then some 0 else parseNatDigits i),
          (if f = [] then some 0 else parseNatDigits f) with
      | some a, some b => some ((a : ℚ) + (b : ℚ) / (10 : ℚ) ^ f.length)
      | _, _ => none
  | _ => none

/-- Exponent suffix of a float literal: an optionally signed digit string. -/
def parseExp (l : List Char) : Option ℤ :=
  match l with
  | '-' :: rest =>
    match parseNatDigits rest with
    | some n => some (-(n : ℤ))
    | none => none
  | '+' :: rest =>
    match parseNatDigits rest with
    | some n => some ((n : ℤ))
    | none => none
  | other =>
    match parseNatDigits other with
    | some n => some ((n : ℤ))
    | none => none

/-- The magnitude at or above which text-to-float64 conversion rounds to infinity
(IEEE 754 binary64, round to nearest, ties to even). -/
def floatOverflowBound : ℚ := ((2 ^ 1024 - 2 ^ 970 : ℕ) : ℚ)

/-- Finish a numeric parse of the unsigned magnitude `q`: magnitudes beyond float64
range overflow to a signed infinity, as the conversion does for texts like
`"1e400"`; otherwise the finite value carries the sign. -/
def finishNum (neg : Bool) (q : ℚ) : PFloat :=
  if floatOverflowBound ≤ q then PFloat.inf neg
  else PFloat.fin (if neg then -q else q)

/-- Model of `pd.to_numeric(errors="coerce")` on one cleaned value text, following
pandas `floatify`: an optional sign, then either a case-insensitive infinity keyword
(`inf` / `infinity`, which parse to a signed infinity, not to `NaN`) or a C-style
float literal (digits with an optional decimal point and an optional `e`/`E`
exponent), overflowing to infinity beyond float64 range. Every other text coerces to
`NaN`, modelled as `none`. Sub-denormal magnitudes are kept exact here rather than
rounded to zero; both are finite, so no claim in this development depends on the
difference. -/
def parseNumeric (t : String) : Option PFloat :=
  let neg : Bool := t.data.head? == some '-'
  let body : List Char :=
    match t.data with
    | '-' :: rest => rest
    | '+' :: rest => rest
    | l => l
  if strLower (String.mk body) = "inf" ∨ strLower (String.mk body) = "infinity" then
    some (PFloat.inf neg)
  else
    match splitPred (fun c => c == 'e' || c == 'E') body with
    | [m] =>
      match parseMantissa m with
      | some q => some (finishNum neg q)
      | none => none
    | [m, ex] =>
      match parseMantissa m, parseExp ex with
      | some q, some e => some (finishNum neg (q * (10 : ℚ) ^ e))
      | _, _ => none
    | _ => none

/-- Value parsing of `_coerce_series_from_df`: the cleaning chain followed by numeric
coercion. -/
def parseValue (t : String) : Option PFloat := parseNumeric (cleanValueText t)

/-- Validity-checked date constructor; invalid calendar combinations coerce to NaT,
modelled as `none`. -/
def mkValidDate (y m d : ℕ) : Option CalDate :=
  if 1 ≤ y ∧ 1 ≤ m ∧ m ≤ 12 ∧ 1 ≤ d ∧ d ≤ daysInMonth y m then some ⟨y, m, d⟩ else none

/-- Date parsing of `_coerce_series_from_df`: models
`pd.to_datetime(errors="coerce", dayfirst=True)` on the numeric formats the pipeline
sees: slash-separated day-first (falling back to month-first when the day-first reading
is not a valid date, as pandas does) and dash-separated ISO year-month-day. Anything
else coerces to NaT (`none`). -/
def parseDate (t : String) : Option CalDate :=
  let l := (strTrim t).data
  if l.contains '/' then
    match splitChar '/' l with
    | [a, b, c] =>
      match parseNatDigits a, parseNatDigits b, parseNatDigits c with
      | some x, some w, some y =>
        match mkValidDate y w x with
        | some dt => some dt
        | none => mkValidDate y x w
      | _, _, _ => none
    | _ => none
  else if l.contains '-' then
    match splitChar '-' l with
    | [a, b, c] =>
      match parseNatDigits a, parseNatDigits b, parseNatDigits c with
      | some y, some w, some x => mkValidDate y w x
      | _, _, _ => none
    | _ => none
  else none

/-- One raw row survives only if both its date and its value parse (`dropna` on the
coerced columns drops the others). -/
def parseRow (r : String × String) : Option (CalDate × PFloat) :=
  match parseDate r.1, parseValue r.2 with
  | some d, some v => some (d, v)
  | _, _ => none

/-- Model of `DataFrame.sort_values("date")` with the default `kind="quicksort"`: the
documented contract guarantees only that the output is a permutation of the rows that
is non-decreasing in the key; the relative order of rows with equal dates is
unspecified, because numpy quicksort (an introsort) is not a stable sort.
`SortValues l lq` holds exactly for the outputs that contract admits. -/
def SortValues (l lq : List (CalDate × PFloat)) : Prop :=
  l.Perm lq ∧ SortedLE lq

/-- Row-level model of `_coerce_series_from_df` on the two selected text columns, as a
relation between the raw rows and a series the code may emit: `to_datetime` / the
value chain with `errors="coerce"` plus `dropna` become `filterMap parseRow`;
`sort_values("date")` becomes any admissible `SortValues` output;
`index.duplicated(keep="last")` on the sorted frame becomes `keepLastRun`; the raise
on an empty frame makes the relation hold only when some row parses. -/
def CoerceOk (raws : List (String × String)) (s : List (CalDate × PFloat)) : Prop :=
  raws.filterMap parseRow ≠ [] ∧
  ∃ lq, SortValues (raws.filterMap parseRow) lq ∧ s = keepLastRun lq

/-- The literal synonym dictionary of `_freq_to_pandas`, with its `"ME"` default for
unrecognized identifiers. -/
def freqMap (f : String) : String :=
  if f = "daily" ∨ f = "day" ∨ f = "d" then "D"
  else if f = "weekly" ∨ f = "week" ∨ f = "w" then "W-FRI"
  else if f = "monthly" ∨ f = "month" ∨ f = "m" then "ME"
  else if f = "quarterly" ∨ f = "quarter" ∨ f = "q" then "QE"
  else if f = "yearly" ∨ f = "year" ∨ f = "y" then "YE"
  else "ME"

/-- Model of `_freq_to_pandas`: `(freq or "monthly").strip().lower()`, a redundant special case
for a literal `"M"`, then the dictionary lookup with default `"ME"`. -/
def freqToPandas (freq : String) : String :=
  let f := strLower (strTrim (if freq = "" then "monthly" else freq))
  if freq = "M" then "ME" else freqMap f

/-- Model of `_resample_last`: `s.resample(rule).last().dropna()`. Every observation is keyed by
the right edge of its period bucket; within a bucket the positionally last observation
wins, and since the series `resample` receives is already date-sorted and the bucket
map is monotone, the mapped keys arrive in non-decreasing order, where the insertion
sort used here leaves their relative order unchanged; buckets without observations
never materialize (`dropna`). -/
def resampleLast (freq : String) (s : List (CalDate × ℚ)) : List (CalDate × ℚ) :=
  sortKeepLast (s.map (fun p => (periodEnd (freqToPandas freq) p.1, p.2)))

/-- Model of `_normalize_100`: empty series unchanged; zero first value unchanged; otherwise
every value is divided by the first value and multiplied by 100. -/
def normalize100 (s : List (CalDate × ℚ)) : List (CalDate × ℚ) :=
  match s with
  | [] => s
  | p :: _ => if p.2 = 0 then s else s.map (fun q => (q.1, q.2 / p.2 * 100))

def pad2 (n : ℕ) : String := if n < 10 then "0" ++ toString n else toString n

def pad4 (n : ℕ) : String :=
  if n < 10 then "000" ++ toString n
  else if n < 100 then "00" ++ toString n
  else if n < 1000 then "0" ++ toString n
  else toString n

/-- Rendering per `strftime("%Y-%m")`. -/
def fmtYM (dt : CalDate) : String := pad4 dt.y ++ "-" ++ pad2 dt.m

/-- Rendering per `strftime("%Y-%m-%d")`. -/
def fmtYMD (dt : CalDate) : String := fmtYM dt ++ "-" ++ pad2 dt.d

/-- Rounding per `round(float(v), 4)`. Python rounds exact ties to even while `round` on ℚ rounds
ties up; no value in this development sits on an exact tie, so the difference is
immaterial. -/
def round4 (v : ℚ) : ℚ := (round (v * 10000) : ℤ) / 10000

/-- The JSON payload of `/api/data` (`_series_to_payload`). -/
structure SeriesPayload where
  asset : String
  base_date : Option String
  freq : String
  points : ℕ
  labels : List String
  values : List ℚ
deriving DecidableEq, Repr

/-- Model of `_series_to_payload`: resample, rebase to 100, then format. Labels use
`strftime("%Y-%m")` for every frequency. -/
def seriesToPayload (asset : String) (s0 : List (CalDate × ℚ)) (freq : String) :
    SeriesPayload :=
  let s := normalize100 (resampleLast freq s0)
  { asset := asset
    base_date := s.head?.map (fun p => fmtYMD p.1)
    freq := if freq = "" then "monthly" else freq
    points := s.length
    labels := s.map (fun p => fmtYM p.1)
    values := s.map (fun p => round4 p.2) }

/-- The sorted common-date index of `pd.concat({...}, axis=1).dropna()`: the dates of
the first series (already sorted) that also occur in the other two. -/
def commonDates (a b c : List (CalDate × ℚ)) : List CalDate :=
  (a.map Prod.fst).filter (fun d =>
    (b.any (fun p => decide (p.1 = d))) && (c.any (fun p => decide (p.1 = d))))

/-- Value of series `s` at date `d`; total as in the aligned frame, where every common
date is present in every column. -/
def getVal (s : List (CalDate × ℚ)) (d : CalDate) : ℚ := (lookupDate s d).getD 0

/-- The JSON payload of `/api/combined`. -/
structure CombinedPayload where
  base_date : String
  freq : String
  labels : List String
  points : ℕ
  benchmark : List ℚ
  portfolio : List ℚ
deriving DecidableEq, Repr

/-- Model of `api_combined` given the three parsed asset series: resample and rebase each,
align on common dates, fail with the literal Italian message when the aligned frame is
empty, otherwise emit the benchmark (ls80) and the 0.80/0.15/0.05 weighted composite,
with labels formatted `"%Y-%m"`. -/
def apiCombined (sLs80 sGold sBtc : List (CalDate × ℚ)) (freq : String) :
    Except String CombinedPayload :=
  let ls80 := normalize100 (resampleLast freq sLs80)
  let gold := normalize100 (resampleLast freq sGold)
  let btc := normalize100 (resampleLast freq sBtc)
  let common := commonDates ls80 gold btc
  if common.isEmpty then
    Except.error ("Dopo l’allineamento delle date comuni, non ci sono dati sufficienti.")
  else
    Except.ok
      { base_date := (common.head?.map fmtYMD).getD ("")
        freq := if freq = "" then "monthly" else freq
        labels := common.map fmtYM
        points := common.length
        benchmark := common.map (fun d => round4 (getVal ls80 d))
        portfolio := common.map (fun d =>
          round4 (0.80 * getVal ls80 d + 0.15 * getVal gold d + 0.05 * getVal btc d)) }

/-- Whether `needle` occurs as a contiguous substring of `hay`. -/
def containsSub (needle hay : String) : Bool :=
  (hay.toList.tails).any (fun t => needle.toList.isPrefixOf t)

/-- Strip a UTF-8 byte-order mark, as reading with `encoding="utf-8-sig"` does. -/
def stripBom (s : String) : String :=
  match s.data with
  | c :: rest => if c = '\uFEFF' then String.mk rest else s
  | [] => s

/-- BOM handling plus `skip_blank_lines=True`. -/
def preprocessLines (lines : List String) : List String :=
  (match lines with
   | [] => []
   | h :: t => stripBom h :: t).filter (fun l => decide (strTrim l ≠ ""))

def splitSemicolon (l : String) : List String := (splitChar ';' l.data).map String.mk

def splitComma (l : String) : List String := (splitChar ',' l.data).map String.mk

/-- Splitting on the `r"\s+"` separator: runs of whitespace, empty fields dropped. -/
def splitWhitespace (l : String) : List String :=
  ((splitPred wsChar l.data).filter (fun w => decide (w ≠ []))).map String.mk

/-- Model of `csv.Sniffer` as pandas invokes it for `sep=None` with the python engine: guess the
delimiter from the first data line, preferring the standard candidate delimiters in
order; fail when none occurs. -/
def sniffDelim (line : String) : Option Char :=
  [',', '\t', ';', ' ', ':'].find? (fun c => line.data.contains c)

/-- One `pd.read_csv` attempt with a fixed splitter: the first non-blank line is always
consumed as the header; the attempt is rejected when the frame is empty or has fewer
than two columns, mirroring the loop conditions of `_read_csv_robust`. -/
def parseAttempt (split : String → List String) (lines : List String) :
    Option (List String × List (List String)) :=
  match preprocessLines lines with
  | [] => none
  | h :: t =>
    if (t.map split).isEmpty then none
    else if (split h).length < 2 then none
    else some (split h, t.map split)

/-- The `sep=None` autodetect attempt of `_read_csv_robust`. -/
def autoAttempt (lines : List String) : Option (List String × List (List String)) :=
  match (preprocessLines lines).head? with
  | none => none
  | some h =>
    match sniffDelim h with
    | none => none
    | some c => parseAttempt (fun l => (splitChar c l.data).map String.mk) lines

/-- Model of `_read_csv_robust`: try autodetect, then `";"`, then `","`, then whitespace; the
first attempt yielding a non-empty two-column frame wins, otherwise the read fails. -/
def readCsvRobust (lines : List String) :
    Except String (List String × List (List String)) :=
  match autoAttempt lines with
  | some df => Except.ok df
  | none =>
    match parseAttempt splitSemicolon lines with
    | some df => Except.ok df
    | none =>
      match parseAttempt splitComma lines with
      | some df => Except.ok df
      | none =>
        match parseAttempt splitWhitespace lines with
        | some df => Except.ok df
        | none => Except.error ("Impossibile leggere il CSV")

theorem normalize100_dates (s : List (CalDate × ℚ)) :
    (normalize100 s).map Prod.fst = s.map Prod.fst := by
  cases s with
  | nil => rfl
  | cons p rest =>
    show (if p.2 = 0 then p :: rest
        else (p :: rest).map (fun q => (q.1, q.2 / p.2 * 100))).map Prod.fst
      = (p :: rest).map Prod.fst
    split_ifs with h
    · rfl
    · simp [List.map_map]

theorem resampleLast_keys {freq : String} {s : List (CalDate × ℚ)} {p : CalDate × ℚ}
    (hp : p ∈ resampleLast freq s) :
    ∃ q ∈ s, p.1 = periodEnd (freqToPandas freq) q.1 := by
  unfold resampleLast at hp
  rcases List.mem_map.mp (mem_sortKeepLast hp) with ⟨q, hq, hqe⟩
  exact ⟨q, hq, by rw [← hqe]⟩

theorem resampleLast_strict (freq : String) (s : List (CalDate × ℚ)) :
    StrictSorted (resampleLast freq s) := by
  unfold resampleLast
  exact sortKeepLast_strict _

/-- C5: for every non-empty series whose first (earliest-date) value is non-zero,
`_normalize_100` keeps the dates and maps every value to `raw / raw_first * 100`; in
particular the first value of the result is exactly 100. -/
theorem rescale_base100 (dt : CalDate) (v : ℚ) (rest : List (CalDate × ℚ)) (hv : v ≠ 0) :
    normalize100 ((dt, v) :: rest)
        = ((dt, v) :: rest).map (fun q => (q.1, q.2 / v * 100)) ∧
    (normalize100 ((dt, v) :: rest)).head? = some (dt, 100) := by
  have hbase : normalize100 ((dt, v) :: rest)
      = ((dt, v) :: rest).map (fun q => (q.1, q.2 / v * 100)) := by
    unfold normalize100
    exact if_neg hv
  refine ⟨hbase, ?_⟩
  rw [hbase]
  simp [div_self hv]

set_option maxRecDepth 16000 in
/-- C5 witness: a concrete series starting at 50 rebases to first value exactly 100. -/
theorem rescale_base100_witness :
    (50 : ℚ) ≠ 0 ∧
    (normalize100 [(⟨2021, 1, 1⟩, 50), (⟨2021, 2, 1⟩, 55)]
        = [((⟨2021, 1, 1⟩ : CalDate), (100 : ℚ)), (⟨2021, 2, 1⟩, 110)] ∧
      (normalize100 [(⟨2021, 1, 1⟩, 50), (⟨2021, 2, 1⟩, 55)]).head?
        = some (⟨2021, 1, 1⟩, 100)) := by
  refine ⟨by norm_num, ?_, ?_⟩
  · rw [(rescale_base100 ⟨2021, 1, 1⟩ 50 [(⟨2021, 2, 1⟩, 55)] (by norm_num)).1]
    exact of_decide_eq_true (by with_unfolding_all rfl)
  · exact (rescale_base100 ⟨2021, 1, 1⟩ 50 [(⟨2021, 2, 1⟩, 55)] (by norm_num)).2

/-- C10: when the first (earliest-date) value is exactly zero, `_normalize_100`
returns the input series unchanged: it neither raises nor divides. -/
theorem rescale_zero_base_unchanged (dt : CalDate) (rest : List (CalDate × ℚ)) :
    normalize100 ((dt, 0) :: rest) = (dt, 0) :: rest := by
  show (if (0 : ℚ) = 0 then (dt, (0 : ℚ)) :: rest
      else ((dt, (0 : ℚ)) :: rest).map (fun q => (q.1, q.2 / (0 : ℚ) * 100)))
    = (dt, (0 : ℚ)) :: rest
  exact if_pos rfl

/-- C6: resampling is idempotent at every frequency string: the keys of a resampled
series are period-end dates, which are fixed points of the period-end map, so a second
resample is the identity. -/
theorem resample_idempotent (freq : String) (s : List (CalDate × ℚ))
    (hv : ∀ p ∈ s, p.1.Valid) :
    resampleLast freq (resampleLast freq s) = resampleLast freq s := by
  have hmap : (resampleLast freq s).map
      (fun p => (periodEnd (freqToPandas freq) p.1, p.2)) = resampleLast freq s := by
    conv_rhs => rw [← List.map_id (resampleLast freq s)]
    apply List.map_congr_left
    intro p hp
    rcases resampleLast_keys hp with ⟨q, hq, hpe⟩
    have hfix : periodEnd (freqToPandas freq) p.1 = p.1 := by
      rw [hpe, periodEnd_idem _ _ (hv q hq)]
    rw [hfix]
    rfl
  calc resampleLast freq (resampleLast freq s)
      = sortKeepLast ((resampleLast freq s).map
          (fun p => (periodEnd (freqToPandas freq) p.1, p.2))) := rfl
    _ = sortKeepLast (resampleLast freq s) := by rw [hmap]
    _ = resampleLast freq s := sortKeepLast_id (resampleLast_strict freq s)

/-- C6 witness: a concrete valid daily series, resampled monthly twice. -/
theorem resample_idempotent_witness :
    (∀ p ∈ [((⟨2021, 1, 5⟩ : CalDate), (10 : ℚ)), (⟨2021, 1, 20⟩, 11), (⟨2021, 2, 3⟩, 12)],
        p.1.Valid) ∧
    resampleLast ("monthly") (resampleLast ("monthly")
        [(⟨2021, 1, 5⟩, 10), (⟨2021, 1, 20⟩, 11), (⟨2021, 2, 3⟩, 12)])
      = resampleLast ("monthly") [(⟨2021, 1, 5⟩, 10), (⟨2021, 1, 20⟩, 11), (⟨2021, 2, 3⟩, 12)] :=
  ⟨by decide, resample_idempotent ("monthly") _ (by decide)⟩

set_option maxRecDepth 16000 in
/-- Evaluation of the value parser on a thousands-grouped European literal. -/
theorem parseValue_grouped_eval :
    parseValue ("1.234,56")
      = some (PFloat.fin (((1234 : ℕ) : ℚ) + ((56 : ℕ) : ℚ) / (10 : ℚ) ^ (2 : ℕ))) := by
  with_unfolding_all rfl

set_option maxRecDepth 16000 in
/-- Evaluation of the value parser on a decimal-comma literal with leading
non-breaking space and space. -/
theorem parseValue_comma_eval :
    parseValue ("\u00A0 123,45")
      = some (PFloat.fin (((123 : ℕ) : ℚ) + ((45 : ℕ) : ℚ) / (10 : ℚ) ^ (2 : ℕ))) := by
  with_unfolding_all rfl

set_option maxRecDepth 16000 in
/-- Evaluation of the value parser on a plain decimal-point literal: the period is
stripped as if it were a thousands mark. -/
theorem parseValue_point_eval :
    parseValue ("123.45") = some (PFloat.fin ((12345 : ℕ) : ℚ)) := by
  with_unfolding_all rfl

set_option maxRecDepth 16000 in
/-- Evaluation of the value parser on a non-numeric text. -/
theorem parseValue_abc_eval : parseValue ("abc") = none := by
  with_unfolding_all rfl

/-- C1 counterexample: the claim's own example `"123.45"` does not parse to `123.45`;
the code removes every period unconditionally, so it parses to `12345`. -/
theorem claim1_counterexample :
    parseValue ("123.45") = some (PFloat.fin 12345) ∧
    parseValue ("123.45") ≠ some (PFloat.fin (123.45 : ℚ)) := by
  constructor
  · rw [parseValue_point_eval]
    simp only [Option.some.injEq, PFloat.fin.injEq]
    norm_num
  · rw [parseValue_point_eval]
    simp only [ne_eq, Option.some.injEq, PFloat.fin.injEq]
    norm_num

/-- C1 amended: value parsing removes non-breaking spaces and spaces, strips every
period unconditionally (not only under a thousands-grouping heuristic), converts a
decimal comma to a point and parses the result; so `"1.234,56"` and `"123,45"` parse
as intended but a plain decimal point `"123.45"` parses to `12345`. -/
theorem value_parsing_strips_all_periods :
    parseValue ("1.234,56") = some (PFloat.fin (1234.56 : ℚ)) ∧
    parseValue ("\u00A0 123,45") = some (PFloat.fin (123.45 : ℚ)) ∧
    parseValue ("123.45") = some (PFloat.fin 12345) ∧
    parseValue ("abc") = none := by
  refine ⟨?_, ?_, ?_, parseValue_abc_eval⟩
  · rw [parseValue_grouped_eval]
    simp only [Option.some.injEq, PFloat.fin.injEq]
    norm_num
  · rw [parseValue_comma_eval]
    simp only [Option.some.injEq, PFloat.fin.injEq]
    norm_num
  · rw [parseValue_point_eval]
    simp only [Option.some.injEq, PFloat.fin.injEq]
    norm_num

set_option maxRecDepth 16000 in
/-- C2 counterexample: at frequency `"daily"` the payload labels stay at month
granularity (`"%Y-%m"`); they are not the full calendar days the claim requires for
Daily. -/
theorem claim2_counterexample :
    (seriesToPayload ("ls80") [(⟨2021, 2, 1⟩, 100), (⟨2021, 3, 1⟩, 110)] "daily").labels
        = ["2021-02", "2021-03"] ∧
    (seriesToPayload ("ls80") [(⟨2021, 2, 1⟩, 100), (⟨2021, 3, 1⟩, 110)] "daily").labels
        ≠ ["2021-02-01", "2021-03-01"] := by
  constructor <;> exact of_decide_eq_true (by with_unfolding_all rfl)

/-- C2 amended: for every frequency the labels are the `"%Y-%m"` renderings of the
resampled period-end dates — always month granularity, never day or year granularity. -/
theorem labels_always_month_granularity (asset : String) (s0 : List (CalDate × ℚ))
    (freq : String) :
    (seriesToPayload asset s0 freq).labels
      = (resampleLast freq s0).map (fun p => fmtYM p.1) := by
  show (normalize100 (resampleLast freq s0)).map (fun p => fmtYM p.1)
      = (resampleLast freq s0).map (fun p => fmtYM p.1)
  have h := congrArg (List.map fmtYM) (normalize100_dates (resampleLast freq s0))
  simpa [List.map_map] using h

theorem parseAttempt_header {split : String → List String} {lines : List String}
    {hdr : List String} {rows : List (List String)}
    (h : parseAttempt split lines = some (hdr, rows)) :
    ∃ fl rest, preprocessLines lines = fl :: rest ∧ hdr = split fl := by
  unfold parseAttempt at h
  split at h
  · exact absurd h (by simp)
  · rename_i fl t heq
    split_ifs at h
    injection h with h'
    refine ⟨fl, t, heq, ?_⟩
    have := congrArg Prod.fst h'
    simpa using this.symm

theorem autoAttempt_header {lines : List String} {hdr : List String}
    {rows : List (List String)} (h : autoAttempt lines = some (hdr, rows)) :
    ∃ fl rest c, preprocessLines lines = fl :: rest ∧ sniffDelim fl = some c ∧
      hdr = (splitChar c fl.data).map String.mk := by
  unfold autoAttempt at h
  split at h
  · exact absurd h (by simp)
  · rename_i fl heq
    split at h
    · exact absurd h (by simp)
    · rename_i c hc
      rcases parseAttempt_header h with ⟨fl', rest, hpre, hhdr⟩
      have hfl : fl' = fl := by
        have h2 : (fl' :: rest).head? = some fl := hpre ▸ heq
        rw [List.head?_cons] at h2
        exact Option.some.inj h2
      subst hfl
      exact ⟨fl', rest, c, hpre, hc, hhdr⟩

/-- C3 amended: `_read_csv_robust` performs no delimiter-directive detection: whenever a
read succeeds, its header row is the first non-blank (BOM-stripped) line split by
whichever delimiter the winning attempt used — the first line is never skipped. -/
theorem ingest_header_from_first_line (lines : List String) (hdr : List String)
    (rows : List (List String))
    (h : readCsvRobust lines = Except.ok (hdr, rows)) :
    ∃ fl rest, preprocessLines lines = fl :: rest ∧
      ((∃ c, sniffDelim fl = some c ∧ hdr = (splitChar c fl.data).map String.mk) ∨
        hdr = splitSemicolon fl ∨ hdr = splitComma fl ∨ hdr = splitWhitespace fl) := by
  unfold readCsvRobust at h
  split at h
  · rename_i df hauto
    injection h with h'
    subst h'
    rcases autoAttempt_header hauto with ⟨fl, rest, c, hpre, hc, hhdr⟩
    exact ⟨fl, rest, hpre, Or.inl ⟨c, hc, hhdr⟩⟩
  · rename_i hauto
    split at h
    · rename_i df hsemi
      injection h with h'
      subst h'
      rcases parseAttempt_header hsemi with ⟨fl, rest, hpre, hhdr⟩
      exact ⟨fl, rest, hpre, Or.inr (Or.inl hhdr)⟩
    · rename_i hsemi
      split at h
      · rename_i df hcomma
        injection h with h'
        subst h'
        rcases parseAttempt_header hcomma with ⟨fl, rest, hpre, hhdr⟩
        exact ⟨fl, rest, hpre, Or.inr (Or.inr (Or.inl hhdr))⟩
      · rename_i hcomma
        split at h
        · rename_i df hws
          injection h with h'
          subst h'
          rcases parseAttempt_header hws with ⟨fl, rest, hpre, hhdr⟩
          exact ⟨fl, rest, hpre, Or.inr (Or.inr (Or.inr hhdr))⟩
        · exact absurd h (by simp)

/-- C3 witness for the amended theorem, at a file whose first line is the
delimiter-directive `sep=;`. -/
theorem ingest_header_from_first_line_witness :
    readCsvRobust ["sep=;", "date;value", "01/02/2021;100"]
        = Except.ok (["sep=", ""], [["date", "value"], ["01/02/2021", "100"]]) ∧
    ∃ fl rest, preprocessLines ["sep=;", "date;value", "01/02/2021;100"] = fl :: rest ∧
      ((∃ c, sniffDelim fl = some c ∧ ["sep=", ""] = (splitChar c fl.data).map String.mk) ∨
        ["sep=", ""] = splitSemicolon fl ∨ ["sep=", ""] = splitComma fl ∨
        ["sep=", ""] = splitWhitespace fl) :=
  ⟨by with_unfolding_all rfl,
    ingest_header_from_first_line _ _ _ (by with_unfolding_all rfl)⟩

/-- C3 counterexample: on a file whose first line is the delimiter-directive `sep=;`,
the read succeeds with the directive line itself (split on `";"`) as the header and
the real header line demoted to a data row — the directive is not detected or
skipped. -/
theorem claim3_counterexample :
    readCsvRobust ["sep=;", "date;value", "01/02/2021;100"]
        = Except.ok (splitSemicolon ("sep=;"), [["date", "value"], ["01/02/2021", "100"]]) ∧
    splitSemicolon ("sep=;") ≠ ["date", "value"] := by
  exact ⟨by with_unfolding_all rfl, of_decide_eq_true (by with_unfolding_all rfl)⟩

set_option maxRecDepth 16000 in
/-- C4 counterexample: on the claim's own example — rows `(2021-03-01, 110)` then
`(2021-03-01, 105)` — the documented contract of `sort_values` (default quicksort,
which is not a stable sort, so the tie order is unspecified) admits both relative
orders of the two equal-date rows, and the dedup then keeps whichever landed last; so
both `105` and `110` are admissible surviving values, and keeping the
source-order-last row is not a guarantee of the code. -/
theorem claim4_counterexample :
    CoerceOk [("01/03/2021", "110"), ("01/03/2021", "105")]
        [(⟨2021, 3, 1⟩, PFloat.fin 105)] ∧
    CoerceOk [("01/03/2021", "110"), ("01/03/2021", "105")]
        [(⟨2021, 3, 1⟩, PFloat.fin 110)] ∧
    PFloat.fin (105 : ℚ) ≠ PFloat.fin (110 : ℚ) := by
  have hp : [("01/03/2021", "110"), ("01/03/2021", "105")].filterMap parseRow
      = [((⟨2021, 3, 1⟩ : CalDate), PFloat.fin 110), (⟨2021, 3, 1⟩, PFloat.fin 105)] :=
    of_decide_eq_true (by with_unfolding_all rfl)
  refine ⟨⟨by rw [hp]; simp, ?_⟩, ⟨by rw [hp]; simp, ?_⟩, ?_⟩
  · refine ⟨[((⟨2021, 3, 1⟩ : CalDate), PFloat.fin 110), (⟨2021, 3, 1⟩, PFloat.fin 105)],
      ⟨by rw [hp], ?_⟩, ?_⟩
    · exact of_decide_eq_true (by with_unfolding_all rfl)
    · exact of_decide_eq_true (by with_unfolding_all rfl)
  · refine ⟨[((⟨2021, 3, 1⟩ : CalDate), PFloat.fin 105), (⟨2021, 3, 1⟩, PFloat.fin 110)],
      ⟨by rw [hp]; exact List.Perm.swap _ _ _, ?_⟩, ?_⟩
    · exact of_decide_eq_true (by with_unfolding_all rfl)
    · exact of_decide_eq_true (by with_unfolding_all rfl)
  · simp only [ne_eq, PFloat.fin.injEq]
    norm_num

/-- C4 amended: for every raw table and every series the normalizer may emit under
the documented `sort_values` contract, each date that some row parses to survives in
exactly one entry, and the surviving value is the parsed value of one of the rows
with that date; which duplicate supplies it is not determined by source order,
because the default quicksort is not stable. -/
theorem duplicate_dates_one_survivor (raws : List (String × String))
    (s : List (CalDate × PFloat)) (h : CoerceOk raws s) (d : CalDate)
    (hd : ∃ r ∈ raws, ∃ v, parseRow r = some (d, v)) :
    ∃ v, (d, v) ∈ s ∧ (∃ r ∈ raws, parseRow r = some (d, v)) ∧
      ∀ v', (d, v') ∈ s → v' = v := by
  obtain ⟨hne, lq, ⟨hperm, hsort⟩, rfl⟩ := h
  obtain ⟨r, hr, v0, hv0⟩ := hd
  have hmem0 : (d, v0) ∈ raws.filterMap parseRow :=
    List.mem_filterMap.mpr ⟨r, hr, hv0⟩
  have hmemq : (d, v0) ∈ lq := hperm.mem_iff.mp hmem0
  obtain ⟨v, hv⟩ := mem_dates_keepLastRun (l := lq) ⟨v0, hmemq⟩
  have hvq : (d, v) ∈ lq := mem_keepLastRun hv
  have hvraw : (d, v) ∈ raws.filterMap parseRow := hperm.mem_iff.mpr hvq
  obtain ⟨r', hr', hvr'⟩ := List.mem_filterMap.mp hvraw
  refine ⟨v, hv, ⟨r', hr', hvr'⟩, ?_⟩
  intro v' hv'
  exact strictSorted_val_unique (keepLastRun_strict hsort) hv' hv

set_option maxRecDepth 16000 in
/-- C4 witness for the amended theorem: on the two-row example, under the admissible
sorted order that keeps the rows in source order, date 2021-03-01 survives in exactly
one entry whose value is the parsed value of one of the two duplicate rows. -/
theorem duplicate_dates_one_survivor_witness :
    ∃ v, ((⟨2021, 3, 1⟩ : CalDate), v) ∈ [((⟨2021, 3, 1⟩ : CalDate), PFloat.fin (105 : ℚ))] ∧
      (∃ r ∈ [("01/03/2021", "110"), ("01/03/2021", "105")],
        parseRow r = some (⟨2021, 3, 1⟩, v)) ∧
      ∀ v', ((⟨2021, 3, 1⟩ : CalDate), v') ∈ [((⟨2021, 3, 1⟩ : CalDate), PFloat.fin (105 : ℚ))]
        → v' = v := by
  refine duplicate_dates_one_survivor [("01/03/2021", "110"), ("01/03/2021", "105")]
    [((⟨2021, 3, 1⟩ : CalDate), PFloat.fin (105 : ℚ))] ?_ ⟨2021, 3, 1⟩ ?_
  · have hp : [("01/03/2021", "110"), ("01/03/2021", "105")].filterMap parseRow
        = [((⟨2021, 3, 1⟩ : CalDate), PFloat.fin 110), (⟨2021, 3, 1⟩, PFloat.fin 105)] :=
      of_decide_eq_true (by with_unfolding_all rfl)
    refine ⟨by rw [hp]; simp,
      [((⟨2021, 3, 1⟩ : CalDate), PFloat.fin 110), (⟨2021, 3, 1⟩, PFloat.fin 105)],
      ⟨by rw [hp], ?_⟩, ?_⟩
    · exact of_decide_eq_true (by with_unfolding_all rfl)
    · exact of_decide_eq_true (by with_unfolding_all rfl)
  · exact ⟨("01/03/2021", "105"), by simp,
      PFloat.fin (105 : ℚ), of_decide_eq_true (by with_unfolding_all rfl)⟩

/-- C8 amended: every series the normalizer may emit has strictly ascending (hence
unique) dates, and every entry is the successful parse of some source row; the
finiteness part of the original claim is dropped, because the value parser can
produce infinities and `dropna` removes only `NaN`. -/
theorem normalizer_output_invariants (raws : List (String × String))
    (s : List (CalDate × PFloat)) (h : CoerceOk raws s) :
    StrictSorted s ∧ ∀ p ∈ s, ∃ r ∈ raws, parseRow r = some p := by
  obtain ⟨hne, lq, ⟨hperm, hsort⟩, rfl⟩ := h
  refine ⟨keepLastRun_strict hsort, ?_⟩
  intro p hp
  have hq : p ∈ lq := mem_keepLastRun hp
  have hraw : p ∈ raws.filterMap parseRow := hperm.mem_iff.mpr hq
  obtain ⟨r, hr, hpr⟩ := List.mem_filterMap.mp hraw
  exact ⟨r, hr, hpr⟩

set_option maxRecDepth 16000 in
/-- C8 witness: a concrete two-row table, under the admissible sorted order that
keeps the rows in source order, yields a strictly ascending series whose entries are
parses of the source rows. -/
theorem normalizer_output_invariants_witness :
    StrictSorted [((⟨2021, 2, 1⟩ : CalDate), PFloat.fin (100 : ℚ)),
        (⟨2021, 3, 1⟩, PFloat.fin 110)] ∧
    ∀ p ∈ [((⟨2021, 2, 1⟩ : CalDate), PFloat.fin (100 : ℚ)), (⟨2021, 3, 1⟩, PFloat.fin 110)],
      ∃ r ∈ [("01/02/2021", "100"), ("01/03/2021", "110")], parseRow r = some p := by
  refine normalizer_output_invariants [("01/02/2021", "100"), ("01/03/2021", "110")] _ ?_
  have hp : [("01/02/2021", "100"), ("01/03/2021", "110")].filterMap parseRow
      = [((⟨2021, 2, 1⟩ : CalDate), PFloat.fin 100), (⟨2021, 3, 1⟩, PFloat.fin 110)] :=
    of_decide_eq_true (by with_unfolding_all rfl)
  refine ⟨by rw [hp]; simp,
    [((⟨2021, 2, 1⟩ : CalDate), PFloat.fin 100), (⟨2021, 3, 1⟩, PFloat.fin 110)],
    ⟨by rw [hp], ?_⟩, ?_⟩
  · exact of_decide_eq_true (by with_unfolding_all rfl)
  · exact of_decide_eq_true (by with_unfolding_all rfl)

set_option maxRecDepth 16000 in
/-- C8 counterexample: the row `(01/03/2021, "inf")` survives the normalizer: the
cleaning chain leaves `"inf"` unchanged, `to_numeric(errors="coerce")` parses it to
positive infinity rather than `NaN`, and `dropna` removes only `NaN`; so a non-finite
value is persisted, refuting the finiteness invariant of the original claim. -/
theorem claim8_counterexample :
    parseValue ("inf") = some (PFloat.inf false) ∧
    CoerceOk [("01/03/2021", "inf")] [(⟨2021, 3, 1⟩, PFloat.inf false)] ∧
    (PFloat.inf false).isFinite = false := by
  have hp : [("01/03/2021", "inf")].filterMap parseRow
      = [((⟨2021, 3, 1⟩ : CalDate), PFloat.inf false)] :=
    of_decide_eq_true (by with_unfolding_all rfl)
  refine ⟨by with_unfolding_all rfl,
    ⟨by rw [hp]; simp,
      [((⟨2021, 3, 1⟩ : CalDate), PFloat.inf false)], ⟨by rw [hp], ?_⟩, ?_⟩, rfl⟩
  · exact of_decide_eq_true (by with_unfolding_all rfl)
  · rfl

/-- C9: frequency resolution is total (every string maps to one of the five pandas
codes), case-insensitive on the synonym sets, and any unrecognized identifier falls
back to `"ME"` (Monthly) rather than failing. -/
theorem freq_resolution :
    (∀ f : String, freqToPandas f = "D" ∨ freqToPandas f = "W-FRI" ∨ freqToPandas f = "ME"
        ∨ freqToPandas f = "QE" ∨ freqToPandas f = "YE") ∧
    (freqToPandas ("month") = "ME" ∧ freqToPandas ("Monthly") = "ME" ∧ freqToPandas ("M") = "ME"
      ∧ freqToPandas ("m") = "ME" ∧ freqToPandas ("WEEK") = "W-FRI" ∧ freqToPandas ("d") = "D"
      ∧ freqToPandas ("Quarterly") = "QE" ∧ freqToPandas ("YEAR") = "YE") ∧
    (∀ f : String,
      strLower (strTrim f) ∉ ["daily", "day", "d", "weekly", "week", "w", "monthly",
        "month", "m", "quarterly", "quarter", "q", "yearly", "year", "y"] →
      freqToPandas f = "ME") := by
  refine ⟨?_, ⟨by with_unfolding_all rfl, by with_unfolding_all rfl,
    by with_unfolding_all rfl, by with_unfolding_all rfl, by with_unfolding_all rfl,
    by with_unfolding_all rfl, by with_unfolding_all rfl, by with_unfolding_all rfl⟩, ?_⟩
  · intro f
    have hx : freqToPandas f
        = if f = "M" then "ME"
          else freqMap (strLower (strTrim (if f = "" then "monthly" else f))) := rfl
    rw [hx]
    unfold freqMap
    split_ifs <;> simp
  · intro f hf
    have hx : freqToPandas f
        = if f = "M" then "ME"
          else freqMap (strLower (strTrim (if f = "" then "monthly" else f))) := rfl
    rw [hx]
    by_cases hM : f = "M"
    · rw [if_pos hM]
    · rw [if_neg hM]
      by_cases hE : f = ""
      · rw [if_pos hE]
        decide
      · rw [if_neg hE]
        generalize hg : strLower (strTrim f) = g at hf
        simp only [List.mem_cons, List.not_mem_nil, or_false, not_or] at hf
        unfold freqMap
        split_ifs with h1 h2 h3 h4 h5 <;> first | rfl | tauto

/-- C9 witness: an unrecognized identifier falls back to Monthly. -/
theorem freq_resolution_witness : freqToPandas ("bogus") = "ME" :=
  freq_resolution.2.2 ("bogus") (of_decide_eq_true (by with_unfolding_all rfl))

/-- C7 amended: when the three-way date intersection after alignment is empty,
`api_combined` fails with its fixed Italian error message (which names no
constituents) and emits no payload. -/
theorem empty_alignment_fails (a b c : List (CalDate × ℚ)) (freq : String)
    (h : commonDates (normalize100 (resampleLast freq a))
        (normalize100 (resampleLast freq b)) (normalize100 (resampleLast freq c)) = []) :
    apiCombined a b c freq
      = Except.error ("Dopo l’allineamento delle date comuni, non ci sono dati sufficienti.") := by
  simp only [apiCombined]
  rw [h]
  rfl

set_option maxRecDepth 16000 in
/-- C7 witness: two assets whose date ranges are disjoint (the spec's Scenario C)
produce the failure. -/
theorem empty_alignment_fails_witness :
    commonDates
        (normalize100 (resampleLast ("monthly")
          [((⟨2021, 1, 31⟩ : CalDate), (10 : ℚ)), (⟨2021, 2, 28⟩, 11)]))
        (normalize100 (resampleLast ("monthly")
          [(⟨2021, 5, 31⟩, 10), (⟨2021, 6, 30⟩, 11)]))
        (normalize100 (resampleLast ("monthly") [(⟨2021, 1, 31⟩, 5)])) = [] ∧
    apiCombined [(⟨2021, 1, 31⟩, 10), (⟨2021, 2, 28⟩, 11)]
        [(⟨2021, 5, 31⟩, 10), (⟨2021, 6, 30⟩, 11)] [(⟨2021, 1, 31⟩, 5)] "monthly"
      = Except.error ("Dopo l’allineamento delle date comuni, non ci sono dati sufficienti.") :=
  ⟨of_decide_eq_true (by with_unfolding_all rfl),
    empty_alignment_fails _ _ _ _ (of_decide_eq_true (by with_unfolding_all rfl))⟩

set_option maxRecDepth 16000 in
/-- C7 counterexample: the failure message is the fixed Italian sentence; it does not
name any of the non-overlapping constituents (`ls80`, `gold`, `btc`), contrary to the
claim. -/
theorem claim7_counterexample :
    apiCombined [((⟨2021, 1, 31⟩ : CalDate), (10 : ℚ)), (⟨2021, 2, 28⟩, 11)]
        [(⟨2021, 5, 31⟩, 10), (⟨2021, 6, 30⟩, 11)] [(⟨2021, 1, 31⟩, 5)] "monthly"
      = Except.error ("Dopo l’allineamento delle date comuni, non ci sono dati sufficienti.") ∧
    containsSub ("ls80")
      "Dopo l’allineamento delle date comuni, non ci sono dati sufficienti." = false ∧
    containsSub ("gold")
      "Dopo l’allineamento delle date comuni, non ci sono dati sufficienti." = false ∧
    containsSub ("btc")
      "Dopo l’allineamento delle date comuni, non ci sono dati sufficienti." = false := by
  refine ⟨by with_unfolding_all rfl, ?_, ?_, ?_⟩ <;> with_unfolding_all rfl
